import Mathlib

/-!
# RepRapFirmware 3.5 collaborative tree: verification of selected routines

Shallow embedding of

* `WiFiSocketServerRTOS-main/src/Misc.cpp` (`SafeStrncpy`, `SafeStrncat`),
* `Duet3Expansion-3.5-dev/src/Heating/Sensors/AdditionalOutputSensor.cpp` (`ConfigurePort`),
* `Duet3Expansion-3.5-dev/src/FilamentMonitors/*.h` (edge capture buffer, rotating magnet words),
* `RepRapFirmware-3.5-dev/src/Movement/Kinematics/ScaraKinematics.cpp`.

Machine integers are naturals with explicit bounds; C strings are byte sequences.
-/

namespace Misc

/-! ## Byte memory seen through the pointer `dst`

`mem i` is the byte at `dst[i]`.  The memory is not cut off at the end of the buffer, so that
a store past the buffer is visible; `writes` logs the index of every store, newest first. -/

/-- Memory relative to `dst`, with the log of the indices stored to. -/
structure Buf where
  mem : Nat → Nat
  writes : List Nat

/-- The store `dst[i] = v`. -/
def Buf.store (b : Buf) (i v : Nat) : Buf :=
  { mem := fun j => if j = i then v else b.mem j, writes := i :: b.writes }

/-- Source memory: the bytes of `src` in order; reading past the list gives the terminator 0. -/
abbrev Src := List Nat

/-- C `strlen` on a source: the number of bytes before the first 0. -/
def cstrlen : Src → Nat
  | [] => 0
  | c :: cs => if c = 0 then 0 else cstrlen cs + 1

/-- C `strlen(dst + off)`: scans `mem` upward from `off`; `fuel` bounds the scan, and `none`
means no terminator was met within `fuel` bytes. -/
def strlen (m : Nat → Nat) (off : Nat) : Nat → Option Nat
  | 0 => none
  | fuel + 1 => if m off = 0 then some 0 else (strlen m (off + 1) fuel).map (· + 1)

/-- The C string stored at `dst + off`, read with at most `fuel` byte reads. -/
def readCStr (m : Nat → Nat) (off : Nat) : Nat → Option (List Nat)
  | 0 => none
  | fuel + 1 => if m off = 0 then some [] else (readCStr m (off + 1) fuel).map (m off :: ·)

/-- C `strncpy(dst + i, src, n)`: copies bytes of `src` up to its terminator, at most `n` of
them, and fills what is left of the `n` bytes with 0. -/
def strncpyAt (b : Buf) (i : Nat) : Src → Nat → Buf
  | _, 0 => b
  | [], n + 1 => strncpyAt (b.store i 0) (i + 1) [] n
  | c :: cs, n + 1 =>
    if c = 0 then strncpyAt (b.store i 0) (i + 1) [] n
    else strncpyAt (b.store i c) (i + 1) cs n

/-- The copy loop of C `strncat`: appends at most `n` bytes of `src` from index `pos` on,
stopping at the terminator of `src`, then stores a terminating 0. -/
def strncatLoop (b : Buf) (pos : Nat) : Src → Nat → Buf
  | _, 0 => b.store pos 0
  | [], _ + 1 => b.store pos 0
  | c :: cs, n + 1 =>
    if c = 0 then b.store pos 0 else strncatLoop (b.store pos c) (pos + 1) cs n

/-- C `strncat(dst + off, src, n)`: finds the end of the string at `dst + off` and appends
there.  `fuel` bounds the search for that end. -/
def strncat (b : Buf) (off : Nat) (src : Src) (n fuel : Nat) : Option Buf :=
  match strlen b.mem off fuel with
  | none => none
  | some dlen => some (strncatLoop b (off + dlen) src n)

/-- `SafeStrncpy(dst, src, length)` of Misc.cpp:
`strncpy(dst, src, length); dst[length - 1] = 0;` -/
def SafeStrncpy (b : Buf) (src : Src) (length : Nat) : Buf :=
  (strncpyAt b 0 src length).store (length - 1) 0

/-- `SafeStrncat(dst, src, length)` of Misc.cpp:
`dst[length - 1] = 0; index = strlen(dst); strncat(dst + index, src, length - index);
dst[length - 1] = 0;`.  After the first store the string at `dst` ends within `length`
bytes, which is the scan bound given to both searches. -/
def SafeStrncat (b : Buf) (src : Src) (length : Nat) : Option Buf :=
  let b1 := b.store (length - 1) 0
  match strlen b1.mem 0 length with
  | none => none
  | some index =>
    match strncat b1 index src (length - index) length with
    | none => none
    | some b2 => some (b2.store (length - 1) 0)

/-- A destination of 4 bytes holding the empty string, followed in memory by bytes of value
85: `dst[0] = 0` and every other byte, inside or past the buffer, is 85. -/
def exampleDst : Buf :=
  { mem := fun i => if i = 0 then 0 else 85, writes := [] }

end Misc

namespace AdditionalOutputSensor

/-! ## `AdditionalOutputSensor::ConfigurePort` -/

/-- The two values of `GCodeResult` that `ConfigurePort` returns. -/
inductive GCodeResult where
  | ok
  | error
  deriving DecidableEq, Repr

/-- The members of the sensor object that `ConfigurePort` reads or assigns.  `polled` records
that `Poll()` was called. -/
structure Sensor where
  sensorNumber : Nat
  enforcePollOrder : Bool
  parentSensor : Nat
  outputNumber : Nat
  polled : Bool
  deriving DecidableEq, Repr

/-- What `ConfigurePort` calls outside its own file: `StrToU32(s, &s)`, giving the number read
and the rest of the text, and `Heat::FindSensor(n)`, giving `GetNumAdditionalOutputs()` of
sensor `n` when that sensor exists. -/
structure Env where
  StrToU32 : List Char → Nat × List Char
  FindSensor : Nat → Option Nat

/-- The character `*portName`; the end of the text reads as the terminator. -/
def deref (portName : List Char) : Char :=
  portName.headD (Char.ofNat 0)

/-- Value of a run of leading decimal digits, with the text after it. -/
def readDigits (acc : Nat) : List Char → Nat × List Char
  | [] => (acc, [])
  | c :: cs =>
    if c.isDigit then readDigits (acc * 10 + (c.toNat - 48)) cs else (acc, c :: cs)

/-- A `StrToU32` for texts that start with a digit and stay below 2^32: the decimal number
at the head of the text. -/
def decimalStrToU32 (s : List Char) : Nat × List Char :=
  readDigits 0 s

/-- `AdditionalOutputSensor::ConfigurePort(portName, reply)`: returns the result code, the
reply text (the text passed in when nothing is written to it) and the sensor afterwards. -/
def ConfigurePort (env : Env) (self : Sensor) (portName : List Char) (reply : String) :
    GCodeResult × String × Sensor :=
  if (deref portName).toUpper ≠ 'S' then
    (GCodeResult.error, "Parent sensor needs to start with S", self)
  else
    let portName1 := portName.tail
    if !(deref portName1).isDigit then
      (GCodeResult.error, "Parent sensor number expected following S", self)
    else
      let parsed := env.StrToU32 portName1
      let self1 := { self with parentSensor := parsed.1 }
      let portName2 := parsed.2
      if deref portName2 ≠ '.' then
        (GCodeResult.error, "Missing additional output number of parent", self1)
      else
        match env.FindSensor self1.parentSensor with
        | none =>
          (GCodeResult.error,
            "Parent sensor " ++ toString self1.parentSensor ++ " does not exist", self1)
        | some numAdditionalOutputs =>
          if self1.enforcePollOrder && decide (self1.parentSensor > self1.sensorNumber) then
            (GCodeResult.error, "Parent sensor must be a lower sensor number than this one",
              self1)
          else
            let portName3 := portName2.tail
            let self2 := { self1 with outputNumber := (env.StrToU32 portName3).1 }
            if self2.outputNumber > numAdditionalOutputs then
              (GCodeResult.error,
                "Parent sensor only has " ++ toString numAdditionalOutputs ++
                  " additional outputs", self2)
            else
              (GCodeResult.ok, reply, { self2 with polled := true })

/-- A board on which the sensors 1 and 3 exist, sensor 1 with two additional outputs and
sensor 3 with none. -/
def exampleEnv : Env :=
  { StrToU32 := decimalStrToU32
    FindSensor := fun n => if n = 1 then some 2 else if n = 3 then some 0 else none }

/-- Sensor 3, created with `enforcePollOrder` set, before it is configured. -/
def exampleSensor : Sensor :=
  { sensorNumber := 3, enforcePollOrder := true, parentSensor := 0, outputNumber := 0,
    polled := false }

end AdditionalOutputSensor

namespace Duet3DFilamentMonitor

/-! ## Edge capture buffer -/

/-- `EdgeCaptureBufferSize` of Duet3DFilamentMonitor.h. -/
def EdgeCaptureBufferSize : Nat := 64

/-- Range of the two buffer indices: they are counted modulo 2^32. -/
def IndexModulus : Nat := 4294967296

/-- The members `edgeCaptures`, `edgeCaptureReadPointer` and `edgeCaptureWritePointer` of
Duet3DFilamentMonitor.h; `edgeCaptures i` is the slot `i` for `i < EdgeCaptureBufferSize`. -/
structure EdgeCaptureBuffer where
  edgeCaptures : Nat → Nat
  edgeCaptureReadPointer : Nat
  edgeCaptureWritePointer : Nat

/-- Modelled from the spec: the body of the producer (`PushEdge`), which is in
Duet3DFilamentMonitor.cpp and not in the sources at hand.  The spec gives a write index
advanced only by the producer, counted modulo 2^32 with no "full" flag, a push that never
blocks and reports nothing, and a slot that is overwritten on overflow: the timestamp goes to
slot `writeIndex mod capacity` and the write index advances by one. -/
def PushEdge (b : EdgeCaptureBuffer) (timestamp : Nat) : EdgeCaptureBuffer :=
  { b with
    edgeCaptures := fun i =>
      if i = b.edgeCaptureWritePointer % EdgeCaptureBufferSize then timestamp
      else b.edgeCaptures i
    edgeCaptureWritePointer := (b.edgeCaptureWritePointer + 1) % IndexModulus }

/-- Number of events between the read index and the write index, counted modulo 2^32. -/
def pending (b : EdgeCaptureBuffer) : Nat :=
  (b.edgeCaptureWritePointer + IndexModulus - b.edgeCaptureReadPointer) % IndexModulus

/-- Modelled from the spec: how the consumer keeps the invariant
`writeIndex - readIndex <= capacity` of the buffer; the code is in Duet3DFilamentMonitor.cpp
and not in the sources at hand.  When the producer has run more than a capacity ahead, the
oldest unread events have been overwritten and are lost: the read index moves up to
`writeIndex - capacity`, the oldest event still in the buffer. -/
def keepInvariant (b : EdgeCaptureBuffer) : EdgeCaptureBuffer :=
  if pending b > EdgeCaptureBufferSize then
    { b with
      edgeCaptureReadPointer :=
        (b.edgeCaptureWritePointer + IndexModulus - EdgeCaptureBufferSize) % IndexModulus }
  else b

/-- Modelled from the spec: the body of the consumer (`PopEdge`), which is in
Duet3DFilamentMonitor.cpp and not in the sources at hand.  The spec gives a read index advanced
only by the consumer, the invariant `writeIndex - readIndex <= capacity`, events that are
consumed exactly once, and a pop that returns empty when the reader has reached the producer's
current write position; otherwise the oldest event still in the buffer is returned and the
read index moves past it. -/
def PopEdge (b : EdgeCaptureBuffer) : Option (Nat × EdgeCaptureBuffer) :=
  let b1 := keepInvariant b
  if b1.edgeCaptureReadPointer = b1.edgeCaptureWritePointer then none
  else
    some (b1.edgeCaptures (b1.edgeCaptureReadPointer % EdgeCaptureBufferSize),
      { b1 with edgeCaptureReadPointer := (b1.edgeCaptureReadPointer + 1) % IndexModulus })

/-- Pushing a sequence of edge timestamps, first one first, with no pop in between. -/
def pushAll (b : EdgeCaptureBuffer) : List Nat → EdgeCaptureBuffer
  | [] => b
  | t :: ts => pushAll (PushEdge b t) ts

/-- Popping until `PopEdge` returns empty, at most `fuel` times: the events in the order
returned, and the buffer afterwards. -/
def drainFuel : Nat → EdgeCaptureBuffer → List Nat × EdgeCaptureBuffer
  | 0, b => ([], b)
  | fuel + 1, b =>
    match PopEdge b with
    | none => ([], b)
    | some (t, b1) => ((drainFuel fuel b1).1.cons t, (drainFuel fuel b1).2)

/-- Draining: pop until empty.  A drain is bounded by the buffer capacity: no more than
`EdgeCaptureBufferSize` events are in the buffer, so that many pops reach the empty buffer. -/
def drain (b : EdgeCaptureBuffer) : List Nat × EdgeCaptureBuffer :=
  drainFuel EdgeCaptureBufferSize b

/-- An empty buffer with both indices at `start`. -/
def emptyAt (slots : Nat → Nat) (start : Nat) : EdgeCaptureBuffer :=
  { edgeCaptures := slots, edgeCaptureReadPointer := start, edgeCaptureWritePointer := start }

end Duet3DFilamentMonitor

namespace RotatingMagnetFilamentMonitor

/-! ## Word layout constants of RotatingMagnetFilamentMonitor.h -/

def TypeMagnetV1ErrorMask : Nat := 0x8000
def TypeMagnetV1SwitchOpenMask : Nat := 0x4000
def TypeMagnetV2ParityMask : Nat := 0x8000
def TypeMagnetV2MessageTypeMask : Nat := 0x6C00
def TypeMagnetV2MessageTypePosition : Nat := 0x0800
def TypeMagnetV2MessageTypeError : Nat := 0x2000
def TypeMagnetV2MessageTypeInfo : Nat := 0x6000
def TypeMagnetV2SwitchOpenMask : Nat := 0x1000
def TypeMagnetV2InfoTypeMask : Nat := 0x1F00
def TypeMagnetV2InfoTypeVersion : Nat := 0x0000
def TypeMagnetV3InfoTypeMagnitude : Nat := 0x0200
def TypeMagnetV3InfoTypeAgc : Nat := 0x0300
def TypeMagnetAngleMask : Nat := 0x03FF

/-- A value of type `uint16_t`. -/
def IsWord (w : Nat) : Prop := w < 65536

instance (w : Nat) : Decidable (IsWord w) :=
  inferInstanceAs (Decidable (w < 65536))

/-- The number of positions of the 10-bit angle. -/
def AngleModulus : Nat := 1024

/-- Modelled from the spec: the movement delta of a position message, computed in
RotatingMagnetFilamentMonitor.cpp, which is not in the sources at hand.  The spec asks for the
delta from `lastKnownPosition` to the new angle to be "10-bit wraparound-aware, i.e., the
minimal-magnitude delta across the 1024 modulus": the forward distance modulo 1024 when that
is at most half a turn, and otherwise the backward distance, negative.  At exactly half a turn
both directions have magnitude 512 and the forward one is taken. -/
def angleDelta (lastKnownPosition newAngle : Nat) : Int :=
  let angleChange := (newAngle + AngleModulus - lastKnownPosition % AngleModulus) % AngleModulus
  if angleChange ≤ AngleModulus / 2 then (angleChange : Int)
  else (angleChange : Int) - (AngleModulus : Int)

end RotatingMagnetFilamentMonitor

namespace ScaraKinematics

/-! ## `ScaraKinematics::AxesAssumedHomed` -/

/-- The operator `~` of an axes bitmap that is `width` bits wide. -/
def bitmapNot (width : Nat) (a : Nat) : Nat :=
  (2 ^ width - 1) ^^^ a

/-- The bitmap with exactly the bits `x` and `y` set; `XyAxes` is this bitmap for the axis
numbers `X_AXIS` and `Y_AXIS`. -/
def axesPair (x y : Nat) : Nat :=
  2 ^ x ||| 2 ^ y

/-- `ScaraKinematics::AxesAssumedHomed(g92Axes)`, for an `AxesBitmap` of `width` bits and the
constant `XyAxes`, both declared outside ScaraKinematics.cpp:
`if ((g92Axes & XyAxes) != XyAxes) { g92Axes &= ~XyAxes; } return g92Axes;` -/
def AxesAssumedHomed (width XyAxes g92Axes : Nat) : Nat :=
  if g92Axes &&& XyAxes ≠ XyAxes then g92Axes &&& bitmapNot width XyAxes else g92Axes

/-! ## `ScaraKinematics::CalculateThetaAndPsi` -/

/-- The `float` type and the operations `CalculateThetaAndPsi` applies to it.  The function is
embedded over any such implementation; the two precisions the C++ mixes (`1.0` and `0.01` are
`double` literals) are not told apart.  `le a b` is `a <= b`, and `a >= b` is `le b a`. -/
structure FloatOps (F : Type) where
  add : F → F → F
  sub : F → F → F
  mul : F → F → F
  div : F → F → F
  neg : F → F
  lt : F → F → Bool
  le : F → F → Bool
  isnan : F → Bool
  quiet_NaN : F
  one : F
  hundredth : F
  RadiansToDegrees : F
  acosf : F → F
  atan2f : F → F → F
  fastSqrtf : F → F

/-- The members of `ScaraKinematics` read by `CalculateThetaAndPsi`, and the cache it writes. -/
structure Scara (F : Type) where
  proximalArmLength : F
  distalArmLength : F
  xOffset : F
  yOffset : F
  thetaLimits0 : F
  thetaLimits1 : F
  psiLimits0 : F
  psiLimits1 : F
  proximalArmLengthSquared : F
  distalArmLengthSquared : F
  twoPd : F
  supportsContinuousRotation0 : Bool
  supportsContinuousRotation1 : Bool
  cachedX : F
  cachedY : F
  cachedTheta : F
  cachedPsi : F
  cachedArmMode : Bool

/-- What a call leaves behind: the return value, the reference parameters `theta`, `psi` and
`armMode`, and the object with its cache. -/
structure Outcome (F : Type) where
  ret : Bool
  theta : F
  psi : F
  armMode : Bool
  self : Scara F

/-- `lo <= v && v <= hi`, written `v >= lo && v <= hi` in the source. -/
def inRange {F : Type} (ops : FloatOps F) (lo hi v : F) : Bool :=
  ops.le lo v && ops.le v hi

/-- `fsquare(x)`. -/
def fsquare {F : Type} (ops : FloatOps F) (x : F) : F :=
  ops.mul x x

/-- The value `1.0 - fsquare(cosPsi)` that the radius test compares with 0.01. -/
def radiusSquare {F : Type} (ops : FloatOps F) (k : Scara F) (machinePosX machinePosY : F) : F :=
  let x := ops.add machinePosX k.xOffset
  let y := ops.add machinePosY k.yOffset
  let cosPsi := ops.div
    (ops.sub (ops.sub (ops.add (fsquare ops x) (fsquare ops y)) k.proximalArmLengthSquared)
      k.distalArmLengthSquared) k.twoPd
  ops.sub ops.one (fsquare ops cosPsi)

/-- The value `acosf(cosPsi) * RadiansToDegrees` that `psi` is set to when the radius test is
passed. -/
def psiDegrees {F : Type} (ops : FloatOps F) (k : Scara F) (machinePosX machinePosY : F) : F :=
  let x := ops.add machinePosX k.xOffset
  let y := ops.add machinePosY k.yOffset
  let cosPsi := ops.div
    (ops.sub (ops.sub (ops.add (fsquare ops x) (fsquare ops y)) k.proximalArmLengthSquared)
      k.distalArmLengthSquared) k.twoPd
  ops.mul (ops.acosf cosPsi) ops.RadiansToDegrees

/-- The radius test `square < 0.01`: true when the target fails it. -/
def failsRadiusTest {F : Type} (ops : FloatOps F) (k : Scara F) (machinePosX machinePosY : F) :
    Bool :=
  ops.lt (radiusSquare ops k machinePosX machinePosY) ops.hundredth


/-- One pass through the body of the `for (;;)` loop up to the `break`: whether the pass
reached `break`, and `theta` and `psi` after it. -/
def tryArmMode {F : Type} (ops : FloatOps F) (k : Scara F) (x y SCARA_K1 SCARA_K2 : F)
    (armMode switchedMode : Bool) (theta psi : F) : Bool × F × F :=
  if armMode != switchedMode then
    if k.supportsContinuousRotation1 || inRange ops k.psiLimits0 k.psiLimits1 psi then
      let theta1 := ops.mul
        (ops.atan2f (ops.sub (ops.mul SCARA_K1 y) (ops.mul SCARA_K2 x))
          (ops.add (ops.mul SCARA_K1 x) (ops.mul SCARA_K2 y))) ops.RadiansToDegrees
      if k.supportsContinuousRotation0 || inRange ops k.thetaLimits0 k.thetaLimits1 theta1 then
        (true, theta1, psi)
      else (false, theta1, psi)
    else (false, theta, psi)
  else
    if k.supportsContinuousRotation1 || inRange ops k.psiLimits0 k.psiLimits1 (ops.neg psi) then
      let theta1 := ops.mul
        (ops.atan2f (ops.add (ops.mul SCARA_K1 y) (ops.mul SCARA_K2 x))
          (ops.sub (ops.mul SCARA_K1 x) (ops.mul SCARA_K2 y))) ops.RadiansToDegrees
      if k.supportsContinuousRotation0 || inRange ops k.thetaLimits0 k.thetaLimits1 theta1 then
        (true, theta1, ops.neg psi)
      else (false, theta1, psi)
    else (false, theta, psi)

/-- The code after the loop: update the arm mode if it was switched, fill the cache and
return true. -/
def acceptMove {F : Type} (k : Scara F) (machinePosX machinePosY theta psi : F)
    (armMode switchedMode : Bool) : Outcome F :=
  let armMode1 := if switchedMode then !armMode else armMode
  { ret := true, theta := theta, psi := psi, armMode := armMode1,
    self := { k with cachedX := machinePosX, cachedY := machinePosY, cachedTheta := theta,
                     cachedPsi := psi, cachedArmMode := armMode1 } }

/-- `ScaraKinematics::CalculateThetaAndPsi(machinePos, isCoordinated, theta, psi, armMode)`.
`theta`, `psi` and `armMode` are passed by reference: the arguments are their values on entry
(the entry value of `psi` is never read).
The loop runs its body once with `switchedMode = false` and, when that pass does not break
and the move is not coordinated, once more with `switchedMode = true`. -/
def CalculateThetaAndPsi {F : Type} (ops : FloatOps F) (k : Scara F)
    (machinePosX machinePosY : F) (isCoordinated : Bool) (theta _psi : F) (armMode : Bool) :
    Outcome F :=
  let x := ops.add machinePosX k.xOffset
  let y := ops.add machinePosY k.yOffset
  let cosPsi := ops.div
    (ops.sub (ops.sub (ops.add (fsquare ops x) (fsquare ops y)) k.proximalArmLengthSquared)
      k.distalArmLengthSquared) k.twoPd
  let square := ops.sub ops.one (fsquare ops cosPsi)
  if ops.lt square ops.hundredth then
    { ret := false, theta := ops.quiet_NaN, psi := ops.quiet_NaN, armMode := armMode, self := k }
  else
    let psi1 := ops.mul (ops.acosf cosPsi) ops.RadiansToDegrees
    let sinPsi := ops.fastSqrtf square
    let SCARA_K1 := ops.add k.proximalArmLength (ops.mul k.distalArmLength cosPsi)
    let SCARA_K2 := ops.mul k.distalArmLength sinPsi
    let pass1 := tryArmMode ops k x y SCARA_K1 SCARA_K2 armMode false theta psi1
    if pass1.1 then acceptMove k machinePosX machinePosY pass1.2.1 pass1.2.2 armMode false
    else if isCoordinated then
      { ret := false, theta := pass1.2.1, psi := pass1.2.2, armMode := armMode, self := k }
    else
      let pass2 := tryArmMode ops k x y SCARA_K1 SCARA_K2 armMode true pass1.2.1 pass1.2.2
      if pass2.1 then acceptMove k machinePosX machinePosY pass2.2.1 pass2.2.2 armMode true
      else
        { ret := false, theta := pass2.2.1, psi := pass2.2.2, armMode := armMode, self := k }

/-! ### A small arithmetic to run the function on

Numbers are integers counting thousandths, and `none` is NaN.  `acosf` is the expansion
`pi/2 - c` about 0 (exact at `c = 0`), `atan2f` the quotient `y/x` for `x > 0` and a quarter
or half turn added otherwise, `fastSqrtf` the integer square root. -/

/-- Lift of a binary integer operation; NaN in gives NaN out. -/
def milliLift (f : Int → Int → Int) (a b : Option Int) : Option Int :=
  match a, b with
  | some u, some v => some (f u v)
  | _, _ => none

/-- Lift of a comparison; a comparison with NaN is false. -/
def milliCmp (f : Int → Int → Bool) (a b : Option Int) : Bool :=
  match a, b with
  | some u, some v => f u v
  | _, _ => false

/-- Fixed-point arithmetic in thousandths with a NaN. -/
def milliOps : FloatOps (Option Int) where
  add := milliLift (fun u v => u + v)
  sub := milliLift (fun u v => u - v)
  mul := milliLift (fun u v => u * v / 1000)
  div := fun a b =>
    match a, b with
    | some u, some v => if v = 0 then none else some (u * 1000 / v)
    | _, _ => none
  neg := fun a => a.map (fun u => -u)
  lt := milliCmp (fun u v => decide (u < v))
  le := milliCmp (fun u v => decide (u ≤ v))
  isnan := fun a => a.isNone
  quiet_NaN := none
  one := some 1000
  hundredth := some 10
  RadiansToDegrees := some 57296
  acosf := fun a => a.map (fun c => 1571 - c)
  atan2f := fun a b =>
    match a, b with
    | some v, some u =>
      if 0 < u then some (v * 1000 / u)
      else if u < 0 then some (if 0 ≤ v then 3142 + v * 1000 / u else v * 1000 / u - 3142)
      else some (if 0 < v then 1571 else if v < 0 then -1571 else 0)
    | _, _ => none
  fastSqrtf := fun a => a.map (fun u => (Int.ofNat (Nat.sqrt (u * 1000).toNat)))

/-- An arm with both lengths 100, no offsets, theta between -90 and 90 degrees and psi
between -45 and 45 degrees (`M669 P100 D100 A-90:90 B-45:45`), with the derived members as
`Recalc` sets them and an empty cache. -/
def exampleArm : Scara (Option Int) :=
  { proximalArmLength := some 100000, distalArmLength := some 100000,
    xOffset := some 0, yOffset := some 0,
    thetaLimits0 := some (-90000), thetaLimits1 := some 90000,
    psiLimits0 := some (-45000), psiLimits1 := some 45000,
    proximalArmLengthSquared := some 10000000, distalArmLengthSquared := some 10000000,
    twoPd := some 20000000,
    supportsContinuousRotation0 := false, supportsContinuousRotation1 := false,
    cachedX := none, cachedY := none, cachedTheta := none, cachedPsi := none,
    cachedArmMode := false }

/-! ## `ScaraKinematics::QueryTerminateHomingMove` -/

/-- `ScaraKinematics::QueryTerminateHomingMove(axis)`:
`return (axis == X_AXIS && (crosstalk[0] != 0.0 || crosstalk[1] != 0.0))
|| (axis == Y_AXIS && crosstalk[2] != 0.0);`.
`neZero c` is the float comparison `c != 0.0`; the axis numbers `X_AXIS` and `Y_AXIS` are
declared outside ScaraKinematics.cpp. -/
def QueryTerminateHomingMove {F : Type} (neZero : F → Bool) (X_AXIS Y_AXIS : Nat)
    (crosstalk0 crosstalk1 crosstalk2 : F) (axis : Nat) : Bool :=
  (decide (axis = X_AXIS) && (neZero crosstalk0 || neZero crosstalk1))
    || (decide (axis = Y_AXIS) && neZero crosstalk2)

/-- The comparison `c != 0.0` of the arithmetic in thousandths: true for every number other
than 0, and true for NaN. -/
def milliNeZero (c : Option Int) : Bool :=
  c != some 0

end ScaraKinematics

/-! # Theorems -/

namespace Misc

/-- Reading after a store. -/
theorem store_mem (b : Buf) (i v j : Nat) :
    (b.store i v).mem j = if j = i then v else b.mem j := rfl

/-- The terminator of a source is met within its bytes. -/
theorem cstrlen_le_length (src : Src) : cstrlen src ≤ src.length := by
  induction src with
  | nil => simp [cstrlen]
  | cons c cs ih =>
    simp only [cstrlen, List.length_cons]
    split <;> omega

/-- The bytes before the terminator are not 0. -/
theorem getD_ne_zero_of_lt_cstrlen (src : Src) (i : Nat) (h : i < cstrlen src) :
    src.getD i 0 ≠ 0 := by
  induction src generalizing i with
  | nil => simp [cstrlen] at h
  | cons c cs ih =>
    simp only [cstrlen] at h
    split at h
    · omega
    · cases i with
      | zero => simpa using ‹¬ c = 0›
      | succ i => simpa using ih i (by omega)

/-- The memory after `strncpy(dst + i, src, n)`: the `n` bytes from `i` hold the string of
`src` followed by zeros, and every other byte is unchanged. -/
theorem strncpyAt_mem (n : Nat) (b : Buf) (i : Nat) (src : Src) (j : Nat) :
    (strncpyAt b i src n).mem j =
      if i ≤ j ∧ j < i + n then (if j - i < cstrlen src then src.getD (j - i) 0 else 0)
      else b.mem j := by
  induction n generalizing b i src with
  | zero =>
    have : ¬ (i ≤ j ∧ j < i) := by omega
    cases src <;> simp [strncpyAt, this]
  | succ n ih =>
    cases src with
    | nil =>
      simp only [strncpyAt, ih, store_mem, cstrlen]
      by_cases h1 : i + 1 ≤ j ∧ j < i + 1 + n
      · have h2 : i ≤ j ∧ j < i + (n + 1) := by omega
        simp [h1, h2]
      · by_cases h3 : j = i
        · subst h3; simp
        · have h2 : ¬ (i ≤ j ∧ j < i + (n + 1)) := by omega
          simp [h1, h2, h3]
    | cons c cs =>
      simp only [strncpyAt]
      by_cases hc : c = 0
      · simp only [hc, if_true, ih, store_mem, cstrlen]
        by_cases h1 : i + 1 ≤ j ∧ j < i + 1 + n
        · have h2 : i ≤ j ∧ j < i + (n + 1) := by omega
          simp [h1, h2]
        · by_cases h3 : j = i
          · subst h3; simp
          · have h2 : ¬ (i ≤ j ∧ j < i + (n + 1)) := by omega
            simp [h1, h2, h3]
      · simp only [hc, if_false, ih, store_mem, cstrlen]
        by_cases h1 : i + 1 ≤ j ∧ j < i + 1 + n
        · have h2 : i ≤ j ∧ j < i + (n + 1) := by omega
          obtain ⟨k, hk⟩ : ∃ k, j - i = k + 1 := ⟨j - i - 1, by omega⟩
          have hk2 : j - (i + 1) = k := by omega
          simp [h1, h2, hk, hk2]
        · by_cases h3 : j = i
          · subst h3; simp [hc]
          · have h2 : ¬ (i ≤ j ∧ j < i + (n + 1)) := by omega
            simp [h1, h2, h3]

/-- The copy `strncpy(dst + i, src, n)` stores only to the `n` bytes from `i`. -/
theorem strncpyAt_writes (n : Nat) (b : Buf) (i : Nat) (src : Src) (j : Nat)
    (h : j ∈ (strncpyAt b i src n).writes) : j ∈ b.writes ∨ (i ≤ j ∧ j < i + n) := by
  induction n generalizing b i src with
  | zero => cases src <;> exact Or.inl (by simpa [strncpyAt] using h)
  | succ n ih =>
    cases src with
    | nil =>
      simp only [strncpyAt] at h
      rcases ih _ _ _ h with h | h
      · simp only [Buf.store, List.mem_cons] at h
        rcases h with h | h
        · right; omega
        · exact Or.inl h
      · right; omega
    | cons c cs =>
      simp only [strncpyAt] at h
      split at h <;>
      · rcases ih _ _ _ h with h | h
        · simp only [Buf.store, List.mem_cons] at h
          rcases h with h | h
          · right; omega
          · exact Or.inl h
        · right; omega

/-- Reading a C string gives `l` when the memory holds the nonzero bytes of `l` followed by
a 0, all within the fuel. -/
theorem readCStr_eq (m : Nat → Nat) (l : List Nat) (off fuel : Nat)
    (hl : ∀ i, i < l.length → m (off + i) = l.getD i 0 ∧ l.getD i 0 ≠ 0)
    (hz : m (off + l.length) = 0) (hf : l.length < fuel) :
    readCStr m off fuel = some l := by
  induction l generalizing off fuel with
  | nil =>
    cases fuel with
    | zero => simp at hf
    | succ fuel => simpa [readCStr] using hz
  | cons c cs ih =>
    cases fuel with
    | zero => simp at hf
    | succ fuel =>
      have h0 := hl 0 (by simp)
      simp only [Nat.add_zero, List.getD_cons_zero] at h0
      have hrec : readCStr m (off + 1) fuel = some cs := by
        apply ih
        · intro i hi
          have := hl (i + 1) (by simpa using hi)
          simpa [Nat.add_assoc, Nat.add_comm 1 i] using this
        · simpa [Nat.add_assoc, Nat.add_comm 1] using hz
        · simpa using hf
      simp [readCStr, h0.1, h0.2, hrec]

/-- C2.  For a length of at least 1, after `SafeStrncpy(dst, src, length)` the byte
`dst[length - 1]` is 0 and `dst`, read as a C string, is the first
`min(strlen(src), length - 1)` characters of `src`; every store is below `length`. -/
theorem SafeStrncpy_null_terminated (b : Buf) (src : Src) (length : Nat) (h : 1 ≤ length) :
    (SafeStrncpy b src length).mem (length - 1) = 0 ∧
    readCStr (SafeStrncpy b src length).mem 0 length
      = some (src.take (min (cstrlen src) (length - 1))) ∧
    (∀ j, j ∈ (SafeStrncpy b src length).writes → j ∈ b.writes ∨ j < length) := by
  have hmem : ∀ j, (SafeStrncpy b src length).mem j =
      if j = length - 1 then 0
      else if j < length then (if j < cstrlen src then src.getD j 0 else 0) else b.mem j := by
    intro j
    simp [SafeStrncpy, store_mem, strncpyAt_mem]
  refine ⟨by simp [hmem], ?_, ?_⟩
  · have hlen := cstrlen_le_length src
    obtain ⟨k, hk⟩ : ∃ k, k = min (cstrlen src) (length - 1) := ⟨_, rfl⟩
    rw [← hk]
    have hklen : (src.take k).length = k := by simp only [List.length_take]; omega
    apply readCStr_eq
    · intro i hi
      rw [hklen] at hi
      have h1 : i < cstrlen src := by omega
      have h2 : i ≠ length - 1 := by omega
      have h3 : i < length := by omega
      have hg : (List.take k src).getD i 0 = src.getD i 0 := by
        simp [List.getD_eq_getElem?_getD, List.getElem?_take, hi]
      rw [hg, hmem]
      simp only [Nat.zero_add, h2, if_false, h3, if_true, h1]
      exact ⟨trivial, getD_ne_zero_of_lt_cstrlen src i h1⟩
    · rw [hklen, Nat.zero_add, hmem]
      by_cases hk1 : k = length - 1
      · simp [hk1]
      · have h1 : ¬ (k < cstrlen src) := by omega
        have h2 : k < length := by omega
        simp [hk1, h1, h2]
    · rw [hklen]; omega
  · intro j hj
    simp only [SafeStrncpy, Buf.store, List.mem_cons] at hj
    rcases hj with hj | hj
    · right; omega
    · rcases strncpyAt_writes _ _ _ _ _ hj with h | h
      · exact Or.inl h
      · right; omega

/-- What `strlen` returns is the offset of a 0 byte, within the fuel. -/
theorem strlen_some (m : Nat → Nat) (fuel off k : Nat) (h : strlen m off fuel = some k) :
    m (off + k) = 0 ∧ k < fuel := by
  induction fuel generalizing off k with
  | zero => simp [strlen] at h
  | succ fuel ih =>
    simp only [strlen] at h
    split at h
    · simp only [Option.some.injEq] at h
      subst h
      exact ⟨by simpa using ‹m off = 0›, by omega⟩
    · simp only [Option.map_eq_some'] at h
      obtain ⟨k1, hk1, rfl⟩ := h
      have := ih _ _ hk1
      exact ⟨by simpa [Nat.add_assoc, Nat.add_comm 1] using this.1, by omega⟩

/-- The search `strlen` finds a terminator whenever there is a 0 byte within the fuel. -/
theorem strlen_total (m : Nat → Nat) (fuel off j : Nat) (hz : m (off + j) = 0) (hj : j < fuel) :
    ∃ k, strlen m off fuel = some k ∧ k ≤ j := by
  induction fuel generalizing off j with
  | zero => omega
  | succ fuel ih =>
    simp only [strlen]
    by_cases h0 : m off = 0
    · exact ⟨0, by simp [h0], by omega⟩
    · cases j with
      | zero => exact absurd (by simpa using hz) h0
      | succ j =>
        obtain ⟨k, hk, hle⟩ := ih (off + 1) j (by simpa [Nat.add_assoc, Nat.add_comm 1] using hz)
          (by omega)
        exact ⟨k + 1, by simp [h0, hk], by omega⟩

/-- When the source has at least `n` characters, the copy loop of `strncat` stores its
terminator `n` bytes after where it started. -/
theorem strncatLoop_writes_end (n : Nat) (b : Buf) (pos : Nat) (src : Src)
    (h : n ≤ cstrlen src) : pos + n ∈ (strncatLoop b pos src n).writes := by
  induction n generalizing b pos src with
  | zero => cases src <;> simp [strncatLoop, Buf.store]
  | succ n ih =>
    cases src with
    | nil => simp [cstrlen] at h
    | cons c cs =>
      simp only [cstrlen] at h
      by_cases hc : c = 0
      · simp [hc] at h
      · simp only [hc, if_false] at h
        simp only [strncatLoop, hc, if_false]
        have := ih (b.store pos c) (pos + 1) cs (by omega)
        simpa [Nat.add_assoc, Nat.add_comm 1] using this

/-- C2 (witness).  A source of 5 characters copied into a buffer of 4 bytes. -/
theorem SafeStrncpy_null_terminated_witness :
    1 ≤ 4 ∧
    ((SafeStrncpy exampleDst [97, 98, 99, 100, 101] 4).mem (4 - 1) = 0 ∧
    readCStr (SafeStrncpy exampleDst [97, 98, 99, 100, 101] 4).mem 0 4
      = some (List.take (min (cstrlen [97, 98, 99, 100, 101]) (4 - 1))
          [97, 98, 99, 100, 101]) ∧
    (∀ j, j ∈ (SafeStrncpy exampleDst [97, 98, 99, 100, 101] 4).writes →
      j ∈ exampleDst.writes ∨ j < 4)) :=
  ⟨by decide, SafeStrncpy_null_terminated exampleDst [97, 98, 99, 100, 101] 4 (by decide)⟩

/-- For a length of at least 1, `SafeStrncat` returns: both searches for a terminator find
one, and the result is the buffer after the copy loop and the final store. -/
theorem SafeStrncat_returns (b : Buf) (src : Src) (length : Nat) (h : 1 ≤ length) :
    ∃ index, strlen (b.store (length - 1) 0).mem 0 length = some index ∧ index < length ∧
      SafeStrncat b src length
        = some ((strncatLoop (b.store (length - 1) 0) index src (length - index)).store
            (length - 1) 0) := by
  obtain ⟨index, hidx, hle⟩ := strlen_total (b.store (length - 1) 0).mem length 0 (length - 1)
    (by simp [store_mem]) (by omega)
  have hz := (strlen_some _ _ _ _ hidx).1
  rw [Nat.zero_add] at hz
  obtain ⟨k, hk, hk0⟩ := strlen_total (b.store (length - 1) 0).mem length index 0
    (by simpa using hz) (by omega)
  have hk0 : k = 0 := by omega
  subst hk0
  refine ⟨index, hidx, by omega, ?_⟩
  simp only [SafeStrncat, hidx, strncat, hk, Nat.add_zero]

/-- Whenever the source does not fit in what is left of the buffer, the byte just past the
buffer is stored to. -/
theorem SafeStrncat_overflow (b : Buf) (src : Src) (length index : Nat) (h : 1 ≤ length)
    (hidx : strlen (b.store (length - 1) 0).mem 0 length = some index)
    (hsrc : length - index ≤ cstrlen src) :
    ∃ b2, SafeStrncat b src length = some b2 ∧ length ∈ b2.writes := by
  obtain ⟨index1, hidx1, hlt, hret⟩ := SafeStrncat_returns b src length h
  rw [hidx] at hidx1
  simp only [Option.some.injEq] at hidx1
  subst hidx1
  refine ⟨_, hret, ?_⟩
  have := strncatLoop_writes_end (length - index) (b.store (length - 1) 0) index src hsrc
  have he : index + (length - index) = length := by omega
  rw [he] at this
  simp only [Buf.store, List.mem_cons] at this ⊢
  exact Or.inr this

/-- C1 (code_bug).  A buffer of 4 bytes holding the empty string, and the source "abcd":
the call stores to the indices 3, 0, 1, 2, 3, 4 and 3 in that order.  The store to index 4
is past the buffer, and the byte there, 85 before the call, is 0 after it. -/
theorem SafeStrncat_stores_past_buffer :
    exampleDst.mem 4 = 85 ∧
    (SafeStrncat exampleDst [97, 98, 99, 100] 4).map (fun b => (b.writes, b.mem 4))
      = some ([3, 4, 3, 2, 1, 0, 3], 0) := by
  decide

end Misc

namespace AdditionalOutputSensor

/-- The poll-order test lets through exactly the parents numbered at most this sensor: once
the port name has been read up to the dot and the parent exists, a parent with a higher
number gets the poll-order error, and one with the same number does not. -/
theorem ConfigurePort_poll_order_test (env : Env) (self : Sensor) (portName : List Char)
    (reply : String) (outputs : Nat)
    (hS : (deref portName).toUpper = 'S') (hd : (deref portName.tail).isDigit = true)
    (hdot : deref (env.StrToU32 portName.tail).2 = '.')
    (hfind : env.FindSensor (env.StrToU32 portName.tail).1 = some outputs)
    (hpoll : self.enforcePollOrder = true) :
    ((env.StrToU32 portName.tail).1 > self.sensorNumber →
      (ConfigurePort env self portName reply).1 = GCodeResult.error ∧
      (ConfigurePort env self portName reply).2.1
        = "Parent sensor must be a lower sensor number than this one") ∧
    ((env.StrToU32 portName.tail).1 = self.sensorNumber →
      (env.StrToU32 (env.StrToU32 portName.tail).2.tail).1 ≤ outputs →
      (ConfigurePort env self portName reply).1 = GCodeResult.ok) := by
  constructor
  · intro hgt
    simp [ConfigurePort, hS, hd, hdot, hfind, hpoll, hgt]
  · intro heq hout
    have hle : ¬ (env.StrToU32 portName.tail).1 > self.sensorNumber := by omega
    have hout2 : ¬ (env.StrToU32 (env.StrToU32 portName.tail).2.tail).1 > outputs := by omega
    simp [ConfigurePort, hS, hd, hdot, hfind, hpoll, hle, hout2]

/-- C4 (code_bug).  Sensor 3 has `enforcePollOrder` set and is given the port name `S3.0`,
whose parent is the existing sensor 3, a number that is not lower than its own.  The call
returns `GCodeResult::ok`, leaves the reply as it was, stores parent 3 and output 0 and polls:
the poll-order error is not raised. -/
theorem ConfigurePort_accepts_parent_of_equal_number :
    ConfigurePort exampleEnv exampleSensor ['S', '3', '.', '0'] ""
      = (GCodeResult.ok, "",
          { sensorNumber := 3, enforcePollOrder := true, parentSensor := 3, outputNumber := 0,
            polled := true }) := by
  decide

end AdditionalOutputSensor

namespace Duet3DFilamentMonitor

/-- Pushing leaves the read index alone. -/
theorem pushAll_read (ts : List Nat) (b : EdgeCaptureBuffer) :
    (pushAll b ts).edgeCaptureReadPointer = b.edgeCaptureReadPointer := by
  induction ts generalizing b with
  | nil => rfl
  | cons t ts ih => simp [pushAll, ih, PushEdge]

/-- Pushing advances the write index by the number of timestamps, modulo 2^32. -/
theorem pushAll_write (ts : List Nat) (b : EdgeCaptureBuffer)
    (hw : b.edgeCaptureWritePointer < IndexModulus) :
    (pushAll b ts).edgeCaptureWritePointer
      = (b.edgeCaptureWritePointer + ts.length) % IndexModulus := by
  induction ts generalizing b with
  | nil => simp [pushAll, Nat.mod_eq_of_lt hw]
  | cons t ts ih =>
    have hlt : (PushEdge b t).edgeCaptureWritePointer < IndexModulus :=
      Nat.mod_lt _ (by decide)
    rw [pushAll, ih _ hlt]
    simp only [PushEdge, IndexModulus, List.length_cons]
    omega

/-- A slot that none of the pushes lands on keeps its content. -/
theorem pushAll_slot_untouched (ts : List Nat) (b : EdgeCaptureBuffer) (j : Nat)
    (h : ∀ i, i < ts.length → (b.edgeCaptureWritePointer + i) % EdgeCaptureBufferSize ≠ j) :
    (pushAll b ts).edgeCaptures j = b.edgeCaptures j := by
  induction ts generalizing b with
  | nil => rfl
  | cons t ts ih =>
    have h0 := h 0 (by simp)
    rw [pushAll, ih]
    · simp only [PushEdge]
      rw [if_neg]
      intro hj
      exact h0 (by simpa using hj.symm)
    · intro i hi
      have := h (i + 1) (by simpa using hi)
      simp only [PushEdge, IndexModulus, EdgeCaptureBufferSize] at this ⊢
      omega

/-- Each of the last `EdgeCaptureBufferSize` timestamps pushed is still in its slot. -/
theorem pushAll_slot_recent (ts : List Nat) (b : EdgeCaptureBuffer) (i : Nat)
    (hi : i < ts.length) (hrecent : ts.length ≤ i + EdgeCaptureBufferSize) :
    (pushAll b ts).edgeCaptures ((b.edgeCaptureWritePointer + i) % EdgeCaptureBufferSize)
      = ts.getD i 0 := by
  induction ts generalizing b i with
  | nil => simp at hi
  | cons t ts ih =>
    cases i with
    | zero =>
      rw [pushAll, pushAll_slot_untouched]
      · simp [PushEdge]
      · intro i hi2
        simp only [List.length_cons, EdgeCaptureBufferSize] at hrecent
        simp only [PushEdge, IndexModulus, EdgeCaptureBufferSize]
        omega
    | succ i =>
      have := ih (PushEdge b t) i (by simpa using hi)
        (by simp only [List.length_cons] at hrecent; omega)
      rw [pushAll, List.getD_cons_succ, ← this]
      congr 1
      simp only [PushEdge, IndexModulus, EdgeCaptureBufferSize]
      omega

/-- A buffer that holds no more than its capacity is left as it is. -/
theorem keepInvariant_of_le (b : EdgeCaptureBuffer) (h : pending b ≤ EdgeCaptureBufferSize) :
    keepInvariant b = b := by
  simp only [keepInvariant]
  rw [if_neg (by omega)]

/-- After the invariant is restored the buffer holds the smaller of what was pending and the
capacity, and the write index and the slots are untouched. -/
theorem keepInvariant_spec (b : EdgeCaptureBuffer)
    (hr : b.edgeCaptureReadPointer < IndexModulus)
    (hw : b.edgeCaptureWritePointer < IndexModulus) :
    pending (keepInvariant b) = min (pending b) EdgeCaptureBufferSize ∧
    (keepInvariant b).edgeCaptureReadPointer
      = (b.edgeCaptureWritePointer + IndexModulus
          - min (pending b) EdgeCaptureBufferSize) % IndexModulus ∧
    (keepInvariant b).edgeCaptureReadPointer < IndexModulus ∧
    (keepInvariant b).edgeCaptureWritePointer = b.edgeCaptureWritePointer ∧
    (keepInvariant b).edgeCaptures = b.edgeCaptures := by
  by_cases h : pending b > EdgeCaptureBufferSize
  · have hk : keepInvariant b = { b with
        edgeCaptureReadPointer :=
          (b.edgeCaptureWritePointer + IndexModulus - EdgeCaptureBufferSize)
            % IndexModulus } := by
      simp only [keepInvariant, if_pos h]
    rw [hk]
    refine ⟨?_, ?_, ?_, rfl, rfl⟩ <;>
    · simp only [pending, IndexModulus, EdgeCaptureBufferSize] at h hr hw ⊢
      omega
  · rw [keepInvariant_of_le b (by omega)]
    refine ⟨?_, ?_, ?_, rfl, rfl⟩ <;>
    · simp only [pending, IndexModulus, EdgeCaptureBufferSize] at h hr hw ⊢
      omega

/-- Restoring the invariant twice is restoring it once: a pop sees the same buffer. -/
theorem PopEdge_keepInvariant (b : EdgeCaptureBuffer)
    (hr : b.edgeCaptureReadPointer < IndexModulus)
    (hw : b.edgeCaptureWritePointer < IndexModulus) :
    PopEdge (keepInvariant b) = PopEdge b := by
  have h := (keepInvariant_spec b hr hw).1
  have hle : pending (keepInvariant b) ≤ EdgeCaptureBufferSize := by
    rw [h]; exact Nat.min_le_right _ _
  simp only [PopEdge, keepInvariant_of_le _ hle]

/-- Draining a buffer that holds no more than its capacity, with fuel for all of it: the
events are the slots at the successive read positions, and the buffer is left with the read
index at the write index. -/
theorem drainFuel_within (fuel : Nat) (b : EdgeCaptureBuffer)
    (hr : b.edgeCaptureReadPointer < IndexModulus)
    (hw : b.edgeCaptureWritePointer < IndexModulus)
    (hd : pending b ≤ EdgeCaptureBufferSize) (hf : pending b ≤ fuel) :
    (drainFuel fuel b).1
      = (List.range (pending b)).map
          (fun i => b.edgeCaptures ((b.edgeCaptureReadPointer + i) % EdgeCaptureBufferSize)) ∧
    (drainFuel fuel b).2.edgeCaptureReadPointer = b.edgeCaptureWritePointer ∧
    (drainFuel fuel b).2.edgeCaptureWritePointer = b.edgeCaptureWritePointer := by
  induction fuel generalizing b with
  | zero =>
    have hp : pending b = 0 := by omega
    rw [hp]
    simp only [pending, IndexModulus] at hp hr hw
    refine ⟨by simp [drainFuel], ?_, rfl⟩
    simp only [drainFuel]
    omega
  | succ fuel ih =>
    by_cases hrw : b.edgeCaptureReadPointer = b.edgeCaptureWritePointer
    · have hp : pending b = 0 := by
        simp only [pending, IndexModulus] at hr hw ⊢
        omega
      have hpop : PopEdge b = none := by
        simp [PopEdge, keepInvariant_of_le b hd, hrw]
      rw [hp]
      simp [drainFuel, hpop, hrw]
    · have hpop : PopEdge b = some
          (b.edgeCaptures (b.edgeCaptureReadPointer % EdgeCaptureBufferSize),
            { b with
              edgeCaptureReadPointer := (b.edgeCaptureReadPointer + 1) % IndexModulus }) := by
        simp [PopEdge, keepInvariant_of_le b hd, hrw]
      obtain ⟨d, hdp⟩ : ∃ d, pending b = d + 1 := by
        refine ⟨pending b - 1, ?_⟩
        simp only [pending, IndexModulus] at hr hw ⊢
        omega
      have hnext : pending
          { b with edgeCaptureReadPointer := (b.edgeCaptureReadPointer + 1) % IndexModulus }
          = d := by
        simp only [pending, IndexModulus] at hr hw hdp ⊢
        omega
      obtain ⟨h1, h2, h3⟩ := ih
        { b with edgeCaptureReadPointer := (b.edgeCaptureReadPointer + 1) % IndexModulus }
        (Nat.mod_lt _ (by decide)) (by simpa [IndexModulus] using hw)
        (by rw [hnext]; omega) (by rw [hnext]; omega)
      simp only [drainFuel, hpop]
      refine ⟨?_, h2, h3⟩
      rw [h1, hnext, hdp, List.range_succ_eq_map]
      simp only [List.cons_eq_cons, List.map_cons, List.map_map, Nat.add_zero, List.cons.injEq,
        true_and]
      apply List.map_congr_left
      intro i _
      simp only [Function.comp, IndexModulus, EdgeCaptureBufferSize]
      congr 1
      omega

/-- A drain with fuel for at least one pop sees the buffer with its invariant restored. -/
theorem drainFuel_keepInvariant (fuel : Nat) (b : EdgeCaptureBuffer)
    (hr : b.edgeCaptureReadPointer < IndexModulus)
    (hw : b.edgeCaptureWritePointer < IndexModulus) :
    drainFuel (fuel + 1) b = drainFuel (fuel + 1) (keepInvariant b) := by
  obtain ⟨hp, _, hrlt, _, _⟩ := keepInvariant_spec b hr hw
  have hle : pending (keepInvariant b) ≤ EdgeCaptureBufferSize := by
    rw [hp]; exact Nat.min_le_right _ _
  rw [drainFuel, drainFuel, PopEdge_keepInvariant b hr hw]
  cases hpop : PopEdge b with
  | none =>
    have hk : PopEdge (keepInvariant b) = none := by
      rw [PopEdge_keepInvariant b hr hw]; exact hpop
    have hempty : (keepInvariant b).edgeCaptureReadPointer
        = (keepInvariant b).edgeCaptureWritePointer := by
      by_contra hne
      simp [PopEdge, keepInvariant_of_le _ hle, hne] at hk
    have h0 : pending (keepInvariant b) = 0 := by
      simp only [pending, hempty, IndexModulus] at hrlt ⊢
      omega
    have hb : keepInvariant b = b := by
      apply keepInvariant_of_le
      rw [hp] at h0
      simp only [EdgeCaptureBufferSize] at h0 ⊢
      omega
    rw [hb]
  | some v => rfl

/-- Draining any buffer: the events are the slots at the last `min pending capacity`
positions before the write index, oldest first, and the buffer is left empty. -/
theorem drain_spec (b : EdgeCaptureBuffer)
    (hr : b.edgeCaptureReadPointer < IndexModulus)
    (hw : b.edgeCaptureWritePointer < IndexModulus) :
    (drain b).1
      = (List.range (min (pending b) EdgeCaptureBufferSize)).map
          (fun i => b.edgeCaptures
            (((b.edgeCaptureWritePointer + IndexModulus
                - min (pending b) EdgeCaptureBufferSize) % IndexModulus + i)
              % EdgeCaptureBufferSize)) ∧
    PopEdge (drain b).2 = none := by
  obtain ⟨hp, hrd, hrlt, hwr, hsl⟩ := keepInvariant_spec b hr hw
  have hle : pending (keepInvariant b) ≤ EdgeCaptureBufferSize := by
    rw [hp]; exact Nat.min_le_right _ _
  have hsame : drain b = drainFuel EdgeCaptureBufferSize (keepInvariant b) := by
    show drainFuel (63 + 1) b = drainFuel (63 + 1) (keepInvariant b)
    exact drainFuel_keepInvariant 63 b hr hw
  obtain ⟨h1, h2, h3⟩ := drainFuel_within EdgeCaptureBufferSize (keepInvariant b) hrlt
    (by rw [hwr]; exact hw) hle hle
  rw [hsame]
  refine ⟨?_, ?_⟩
  · rw [h1, hp, hrd, hsl]
  · have hfin : pending (drainFuel EdgeCaptureBufferSize (keepInvariant b)).2 = 0 := by
      simp only [pending, h2, h3, IndexModulus]
      omega
    simp [PopEdge, keepInvariant_of_le _ (by rw [hfin]; exact Nat.zero_le _), h2, h3]

/-- C5.  After the timestamps `ts` are pushed into an empty buffer with no pop in between,
draining returns at most `EdgeCaptureBufferSize` events, and they are the most recently
pushed ones in oldest-first order: the drain is the end of `ts`, of length the smaller of
`EdgeCaptureBufferSize` and the number pushed (counted modulo 2^32, as the indices are).  For
fewer than 2^32 pushes that is the last 64 timestamps, or all of them when no more than 64
were pushed.  The buffer is left empty. -/
theorem drain_after_pushes (slots : Nat → Nat) (start : Nat) (ts : List Nat)
    (hstart : start < IndexModulus) :
    (drain (pushAll (emptyAt slots start) ts)).1.length ≤ EdgeCaptureBufferSize ∧
    (drain (pushAll (emptyAt slots start) ts)).1
      = ts.drop (ts.length - min (ts.length % IndexModulus) EdgeCaptureBufferSize) ∧
    (ts.length < IndexModulus →
      (drain (pushAll (emptyAt slots start) ts)).1
        = ts.drop (ts.length - EdgeCaptureBufferSize)) ∧
    (ts.length ≤ EdgeCaptureBufferSize → (drain (pushAll (emptyAt slots start) ts)).1 = ts) ∧
    PopEdge (drain (pushAll (emptyAt slots start) ts)).2 = none := by
  have hr : (pushAll (emptyAt slots start) ts).edgeCaptureReadPointer = start :=
    pushAll_read ts _
  have hw : (pushAll (emptyAt slots start) ts).edgeCaptureWritePointer
      = (start + ts.length) % IndexModulus := pushAll_write ts _ hstart
  have hp : pending (pushAll (emptyAt slots start) ts) = ts.length % IndexModulus := by
    simp only [pending, hr, hw, IndexModulus] at hstart ⊢
    omega
  obtain ⟨h1, h2⟩ := drain_spec (pushAll (emptyAt slots start) ts)
    (by rw [hr]; exact hstart) (by rw [hw]; exact Nat.mod_lt _ (by decide))
  rw [hp, hw] at h1
  obtain ⟨k, hk⟩ : ∃ k, k = min (ts.length % IndexModulus) EdgeCaptureBufferSize := ⟨_, rfl⟩
  rw [← hk] at h1 ⊢
  have hkn : k ≤ ts.length := by
    have := Nat.mod_le ts.length IndexModulus
    omega
  have hk64 : k ≤ EdgeCaptureBufferSize := by omega
  have hout : (drain (pushAll (emptyAt slots start) ts)).1 = ts.drop (ts.length - k) := by
    rw [h1]
    apply List.ext_getElem
    · simp only [List.length_map, List.length_range, List.length_drop]
      omega
    · intro i hi1 hi2
      simp only [List.length_map, List.length_range] at hi1
      simp only [List.getElem_drop, List.getElem_map, List.getElem_range]
      have hrec := pushAll_slot_recent ts (emptyAt slots start) (ts.length - k + i)
        (by omega) (by omega)
      have hw0 : (emptyAt slots start).edgeCaptureWritePointer = start := rfl
      rw [hw0, List.getD_eq_getElem?_getD, List.getElem?_eq_getElem (by omega)] at hrec
      simp only [Option.getD_some] at hrec
      rw [← hrec]
      congr 1
      simp only [IndexModulus, EdgeCaptureBufferSize] at hk hstart hkn ⊢
      omega
  refine ⟨?_, hout, ?_, ?_, h2⟩
  · rw [hout, List.length_drop]; omega
  · intro hlen
    rw [hout]
    have hmod : ts.length % IndexModulus = ts.length := Nat.mod_eq_of_lt hlen
    congr 1
    simp only [EdgeCaptureBufferSize] at hk ⊢
    omega
  · intro hle
    rw [hout]
    have hlt : ts.length < IndexModulus := by
      simp only [EdgeCaptureBufferSize, IndexModulus] at hle ⊢
      omega
    have hmod : ts.length % IndexModulus = ts.length := Nat.mod_eq_of_lt hlt
    have h0 : ts.length - k = 0 := by omega
    rw [h0, List.drop_zero]

/-- C5 (witness).  Seventy timestamps, 0 to 69, pushed into a buffer whose indices start six
short of 2^32, so that both indices wrap around during the run. -/
theorem drain_after_pushes_witness :
    4294967290 < IndexModulus ∧
    ((drain (pushAll (emptyAt (fun _ => 0) 4294967290) (List.range 70))).1.length
      ≤ EdgeCaptureBufferSize ∧
    (drain (pushAll (emptyAt (fun _ => 0) 4294967290) (List.range 70))).1
      = (List.range 70).drop
          ((List.range 70).length
            - min ((List.range 70).length % IndexModulus) EdgeCaptureBufferSize) ∧
    ((List.range 70).length < IndexModulus →
      (drain (pushAll (emptyAt (fun _ => 0) 4294967290) (List.range 70))).1
        = (List.range 70).drop ((List.range 70).length - EdgeCaptureBufferSize)) ∧
    ((List.range 70).length ≤ EdgeCaptureBufferSize →
      (drain (pushAll (emptyAt (fun _ => 0) 4294967290) (List.range 70))).1 = List.range 70) ∧
    PopEdge (drain (pushAll (emptyAt (fun _ => 0) 4294967290) (List.range 70))).2 = none) :=
  ⟨by decide, drain_after_pushes (fun _ => 0) 4294967290 (List.range 70) (by decide)⟩

/-- Sixty-five timestamps, 1000 to 1064, pushed into an empty buffer: the drain returns the
64 timestamps 1001 to 1064 in that order; the oldest one, 1000, was overwritten by 1064 and is
lost, and no event is returned twice. -/
theorem drain_of_65_pushes :
    (drain (pushAll (emptyAt (fun _ => 0) 0) ((List.range 65).map (fun i => i + 1000)))).1
      = (List.range 64).map (fun i => i + 1001) := by
  decide

/-- C12.  `EdgeCaptureBufferSize` is 64, which is 2^6, and for every natural index `i` the
remainder `i mod EdgeCaptureBufferSize` is `i AND (EdgeCaptureBufferSize - 1)`. -/
theorem EdgeCaptureBufferSize_power_of_two :
    EdgeCaptureBufferSize = 64 ∧ EdgeCaptureBufferSize = 2 ^ 6 ∧
    (∀ i : Nat, i % EdgeCaptureBufferSize = i &&& (EdgeCaptureBufferSize - 1)) := by
  refine ⟨rfl, by decide, ?_⟩
  intro i
  have h := Nat.and_pow_two_sub_one_eq_mod i 6
  have h64 : EdgeCaptureBufferSize - 1 = 2 ^ 6 - 1 := by decide
  have hm : EdgeCaptureBufferSize = 2 ^ 6 := by decide
  rw [h64, h, hm]

end Duet3DFilamentMonitor

namespace RotatingMagnetFilamentMonitor

/-- C6.  For 10-bit angles `lastKnownPosition` and `newAngle`, the movement delta differs from
`newAngle - lastKnownPosition` by a multiple of 1024, takes `lastKnownPosition` to `newAngle`
modulo 1024, and no integer congruent to that difference has a smaller magnitude; the step
from 1023 to 2 has delta +3, not -1021. -/
theorem angleDelta_minimal_magnitude (lastKnownPosition newAngle : Nat)
    (hlast : lastKnownPosition < AngleModulus) (hnew : newAngle < AngleModulus) :
    (1024 : Int) ∣ angleDelta lastKnownPosition newAngle
        - ((newAngle : Int) - (lastKnownPosition : Int)) ∧
    ((lastKnownPosition : Int) + angleDelta lastKnownPosition newAngle) % 1024
      = (newAngle : Int) ∧
    (∀ d : Int, (1024 : Int) ∣ d - ((newAngle : Int) - (lastKnownPosition : Int)) →
      |angleDelta lastKnownPosition newAngle| ≤ |d|) ∧
    angleDelta 1023 2 = 3 ∧ angleDelta 1023 2 ≠ -1021 := by
  simp only [AngleModulus] at hlast hnew
  have hdef : angleDelta lastKnownPosition newAngle
      = (if newAngle < lastKnownPosition then
          (if newAngle + 1024 - lastKnownPosition ≤ 512 then
            (newAngle : Int) + 1024 - lastKnownPosition
           else (newAngle : Int) - lastKnownPosition)
         else
          (if newAngle - lastKnownPosition ≤ 512 then (newAngle : Int) - lastKnownPosition
           else (newAngle : Int) - lastKnownPosition - 1024)) := by
    simp only [angleDelta, AngleModulus]
    split_ifs <;> omega
  have hbound : -512 < angleDelta lastKnownPosition newAngle ∧
      angleDelta lastKnownPosition newAngle ≤ 512 := by
    rw [hdef]; split_ifs <;> omega
  have hdvd : (1024 : Int) ∣ angleDelta lastKnownPosition newAngle
      - ((newAngle : Int) - (lastKnownPosition : Int)) := by
    rw [hdef]; split_ifs <;> omega
  refine ⟨hdvd, ?_, ?_, by decide, by decide⟩
  · omega
  · intro d hd
    have h2 : (1024 : Int) ∣ d - angleDelta lastKnownPosition newAngle := by
      have := Int.dvd_sub hd hdvd
      simpa using this
    rw [abs_le]
    rcases le_or_lt 0 d with h0 | h0
    · rw [abs_of_nonneg h0]; omega
    · rw [abs_of_neg h0]; omega

/-- C6 (witness).  The step from 1000 to 10 across the wraparound. -/
theorem angleDelta_minimal_magnitude_witness :
    1000 < AngleModulus ∧ 10 < AngleModulus ∧
    ((1024 : Int) ∣ angleDelta 1000 10 - (((10 : Nat) : Int) - ((1000 : Nat) : Int)) ∧
    (((1000 : Nat) : Int) + angleDelta 1000 10) % 1024 = ((10 : Nat) : Int) ∧
    (∀ d : Int, (1024 : Int) ∣ d - (((10 : Nat) : Int) - ((1000 : Nat) : Int)) →
      |angleDelta 1000 10| ≤ |d|) ∧
    angleDelta 1023 2 = 3 ∧ angleDelta 1023 2 ≠ -1021) :=
  ⟨by decide, by decide, angleDelta_minimal_magnitude 1000 10 (by decide) (by decide)⟩

/-- C7.  The type codes Position, Error and Info are pairwise distinct, each is unchanged by
the type mask, no word passes two of the three type tests, and each test is passed by some
16-bit word. -/
theorem messageType_unambiguous :
    (TypeMagnetV2MessageTypePosition ≠ TypeMagnetV2MessageTypeError ∧
      TypeMagnetV2MessageTypePosition ≠ TypeMagnetV2MessageTypeInfo ∧
      TypeMagnetV2MessageTypeError ≠ TypeMagnetV2MessageTypeInfo) ∧
    (TypeMagnetV2MessageTypePosition &&& TypeMagnetV2MessageTypeMask
        = TypeMagnetV2MessageTypePosition ∧
      TypeMagnetV2MessageTypeError &&& TypeMagnetV2MessageTypeMask
        = TypeMagnetV2MessageTypeError ∧
      TypeMagnetV2MessageTypeInfo &&& TypeMagnetV2MessageTypeMask
        = TypeMagnetV2MessageTypeInfo) ∧
    (∀ w : Nat,
      ¬ (w &&& TypeMagnetV2MessageTypeMask = TypeMagnetV2MessageTypePosition ∧
          w &&& TypeMagnetV2MessageTypeMask = TypeMagnetV2MessageTypeError) ∧
      ¬ (w &&& TypeMagnetV2MessageTypeMask = TypeMagnetV2MessageTypePosition ∧
          w &&& TypeMagnetV2MessageTypeMask = TypeMagnetV2MessageTypeInfo) ∧
      ¬ (w &&& TypeMagnetV2MessageTypeMask = TypeMagnetV2MessageTypeError ∧
          w &&& TypeMagnetV2MessageTypeMask = TypeMagnetV2MessageTypeInfo)) ∧
    (∃ w, IsWord w ∧ w &&& TypeMagnetV2MessageTypeMask = TypeMagnetV2MessageTypePosition) ∧
    (∃ w, IsWord w ∧ w &&& TypeMagnetV2MessageTypeMask = TypeMagnetV2MessageTypeError) ∧
    (∃ w, IsWord w ∧ w &&& TypeMagnetV2MessageTypeMask = TypeMagnetV2MessageTypeInfo) := by
  refine ⟨by decide, by decide, ?_, ⟨0x0800, by decide, by decide⟩,
    ⟨0x2000, by decide, by decide⟩, ⟨0x6000, by decide, by decide⟩⟩
  intro w
  refine ⟨?_, ?_, ?_⟩ <;>
  · rintro ⟨h1, h2⟩
    rw [h1] at h2
    exact absurd h2 (by decide)

/-- C8.  For every word `w` (every natural number, and so every 16-bit word), the angle
`w AND TypeMagnetAngleMask` is `w mod 1024` and lies in 0..1023. -/
theorem angle_is_word_mod_1024 (w : Nat) :
    w &&& TypeMagnetAngleMask = w % AngleModulus ∧ w &&& TypeMagnetAngleMask < 1024 := by
  have h : w &&& TypeMagnetAngleMask = w % AngleModulus := by
    have := Nat.and_pow_two_sub_one_eq_mod w 10
    simpa [TypeMagnetAngleMask, AngleModulus] using this
  refine ⟨h, ?_⟩
  rw [h]
  exact Nat.mod_lt _ (by decide)

/-- C9 (counterexample).  The bits of a 16-bit word other than the two version 1 flags are
0x3FFF, which is not the angle mask 0x03FF: the word 0x0400 is not zero, yet its error flag,
its switch-open flag and its angle field are all zero. -/
theorem v1_remaining_bits_not_angle_field :
    (0xFFFF ^^^ (TypeMagnetV1ErrorMask ||| TypeMagnetV1SwitchOpenMask)) = 0x3FFF ∧
    (0xFFFF ^^^ (TypeMagnetV1ErrorMask ||| TypeMagnetV1SwitchOpenMask)) ≠ TypeMagnetAngleMask ∧
    IsWord 0x0400 ∧ 0x0400 &&& TypeMagnetV1ErrorMask = 0 ∧
    0x0400 &&& TypeMagnetV1SwitchOpenMask = 0 ∧ 0x0400 &&& TypeMagnetAngleMask = 0 := by
  decide

/-- C9 (amended).  `TypeMagnetV1ErrorMask` is bit 15 alone, `TypeMagnetV1SwitchOpenMask` is
bit 14 alone, `TypeMagnetAngleMask` is the bits 0 to 9, the three masks are pairwise disjoint,
and the bits other than the two flags are the angle field together with the bits 10 to 13
(0x3C00), which are in none of the three masks: a 16-bit word is made up of its two flags, its
bits 10 to 13 and its angle field. -/
theorem v1_word_layout :
    TypeMagnetV1ErrorMask = 2 ^ 15 ∧ TypeMagnetV1SwitchOpenMask = 2 ^ 14 ∧
    TypeMagnetAngleMask = 2 ^ 10 - 1 ∧
    TypeMagnetV1ErrorMask &&& TypeMagnetV1SwitchOpenMask = 0 ∧
    TypeMagnetV1ErrorMask &&& TypeMagnetAngleMask = 0 ∧
    TypeMagnetV1SwitchOpenMask &&& TypeMagnetAngleMask = 0 ∧
    (0xFFFF ^^^ (TypeMagnetV1ErrorMask ||| TypeMagnetV1SwitchOpenMask))
      = TypeMagnetAngleMask ||| 0x3C00 ∧
    0x3C00 &&& TypeMagnetAngleMask = 0 ∧ 0x3C00 &&& TypeMagnetV1ErrorMask = 0 ∧
    0x3C00 &&& TypeMagnetV1SwitchOpenMask = 0 ∧
    (∀ w : Nat, IsWord w →
      w = (w &&& TypeMagnetV1ErrorMask) ||| (w &&& TypeMagnetV1SwitchOpenMask)
            ||| (w &&& 0x3C00) ||| (w &&& TypeMagnetAngleMask)) := by
  refine ⟨by decide, by decide, by decide, by decide, by decide, by decide, by decide,
    by decide, by decide, by decide, ?_⟩
  intro w hw
  have h16 : w &&& 2 ^ 16 - 1 = w := Nat.and_pow_two_sub_one_of_lt_two_pow hw
  have hall : (2 ^ 16 - 1 : Nat) = TypeMagnetV1ErrorMask ||| TypeMagnetV1SwitchOpenMask
      ||| 0x3C00 ||| TypeMagnetAngleMask := by decide
  rw [hall, Nat.and_or_distrib_left, Nat.and_or_distrib_left, Nat.and_or_distrib_left] at h16
  exact h16.symm

/-- C13.  The parity mask, the message type mask, the switch-open mask and the angle mask of
a version 2/3 position word are pairwise disjoint and together cover all 16 bits; so every
16-bit word is made up of its four fields. -/
theorem v2_position_word_fields :
    TypeMagnetV2ParityMask = 0x8000 ∧ TypeMagnetV2MessageTypeMask = 0x6C00 ∧
    TypeMagnetV2SwitchOpenMask = 0x1000 ∧ TypeMagnetAngleMask = 0x03FF ∧
    TypeMagnetV2ParityMask &&& TypeMagnetV2MessageTypeMask = 0 ∧
    TypeMagnetV2ParityMask &&& TypeMagnetV2SwitchOpenMask = 0 ∧
    TypeMagnetV2ParityMask &&& TypeMagnetAngleMask = 0 ∧
    TypeMagnetV2MessageTypeMask &&& TypeMagnetV2SwitchOpenMask = 0 ∧
    TypeMagnetV2MessageTypeMask &&& TypeMagnetAngleMask = 0 ∧
    TypeMagnetV2SwitchOpenMask &&& TypeMagnetAngleMask = 0 ∧
    TypeMagnetV2ParityMask ||| TypeMagnetV2MessageTypeMask ||| TypeMagnetV2SwitchOpenMask
      ||| TypeMagnetAngleMask = 0xFFFF ∧
    (∀ w : Nat, IsWord w →
      w = (w &&& TypeMagnetV2ParityMask) ||| (w &&& TypeMagnetV2MessageTypeMask)
            ||| (w &&& TypeMagnetV2SwitchOpenMask) ||| (w &&& TypeMagnetAngleMask)) := by
  refine ⟨rfl, rfl, rfl, rfl, by decide, by decide, by decide, by decide, by decide,
    by decide, by decide, ?_⟩
  intro w hw
  have h16 : w &&& 2 ^ 16 - 1 = w := Nat.and_pow_two_sub_one_of_lt_two_pow hw
  have hall : (2 ^ 16 - 1 : Nat) = TypeMagnetV2ParityMask ||| TypeMagnetV2MessageTypeMask
      ||| TypeMagnetV2SwitchOpenMask ||| TypeMagnetAngleMask := by decide
  rw [hall, Nat.and_or_distrib_left, Nat.and_or_distrib_left, Nat.and_or_distrib_left] at h16
  exact h16.symm

/-- C14.  The info sub-type codes version, magnitude and AGC are pairwise distinct, each is
unchanged by `TypeMagnetV2InfoTypeMask`, each occurs in some 16-bit word that is also an info
message, and no word matches two of them. -/
theorem infoType_codes_well_formed :
    (TypeMagnetV2InfoTypeVersion ≠ TypeMagnetV3InfoTypeMagnitude ∧
      TypeMagnetV2InfoTypeVersion ≠ TypeMagnetV3InfoTypeAgc ∧
      TypeMagnetV3InfoTypeMagnitude ≠ TypeMagnetV3InfoTypeAgc) ∧
    (TypeMagnetV2InfoTypeVersion &&& TypeMagnetV2InfoTypeMask = TypeMagnetV2InfoTypeVersion ∧
      TypeMagnetV3InfoTypeMagnitude &&& TypeMagnetV2InfoTypeMask
        = TypeMagnetV3InfoTypeMagnitude ∧
      TypeMagnetV3InfoTypeAgc &&& TypeMagnetV2InfoTypeMask = TypeMagnetV3InfoTypeAgc) ∧
    (∃ w, IsWord w ∧ w &&& TypeMagnetV2MessageTypeMask = TypeMagnetV2MessageTypeInfo ∧
      w &&& TypeMagnetV2InfoTypeMask = TypeMagnetV2InfoTypeVersion) ∧
    (∃ w, IsWord w ∧ w &&& TypeMagnetV2MessageTypeMask = TypeMagnetV2MessageTypeInfo ∧
      w &&& TypeMagnetV2InfoTypeMask = TypeMagnetV3InfoTypeMagnitude) ∧
    (∃ w, IsWord w ∧ w &&& TypeMagnetV2MessageTypeMask = TypeMagnetV2MessageTypeInfo ∧
      w &&& TypeMagnetV2InfoTypeMask = TypeMagnetV3InfoTypeAgc) ∧
    (∀ w : Nat,
      ¬ (w &&& TypeMagnetV2InfoTypeMask = TypeMagnetV2InfoTypeVersion ∧
          w &&& TypeMagnetV2InfoTypeMask = TypeMagnetV3InfoTypeMagnitude) ∧
      ¬ (w &&& TypeMagnetV2InfoTypeMask = TypeMagnetV2InfoTypeVersion ∧
          w &&& TypeMagnetV2InfoTypeMask = TypeMagnetV3InfoTypeAgc) ∧
      ¬ (w &&& TypeMagnetV2InfoTypeMask = TypeMagnetV3InfoTypeMagnitude ∧
          w &&& TypeMagnetV2InfoTypeMask = TypeMagnetV3InfoTypeAgc)) := by
  refine ⟨by decide, by decide, ⟨0x6000, by decide, by decide, by decide⟩,
    ⟨0x6200, by decide, by decide, by decide⟩, ⟨0x6300, by decide, by decide, by decide⟩, ?_⟩
  intro w
  refine ⟨?_, ?_, ?_⟩ <;>
  · rintro ⟨h1, h2⟩
    rw [h1] at h2
    exact absurd h2 (by decide)

end RotatingMagnetFilamentMonitor

namespace ScaraKinematics

/-- The bits of the bitmap of two axes. -/
theorem testBit_axesPair (x y i : Nat) :
    (axesPair x y).testBit i = (decide (x = i) || decide (y = i)) := by
  simp [axesPair, Nat.testBit_or, Nat.testBit_two_pow]

/-- The test `(g & XyAxes) == XyAxes` holds exactly when `g` has both axes. -/
theorem and_axesPair_eq_iff (x y g : Nat) :
    g &&& axesPair x y = axesPair x y ↔ (g.testBit x = true ∧ g.testBit y = true) := by
  constructor
  · intro h
    have hx := congrArg (fun n => Nat.testBit n x) h
    have hy := congrArg (fun n => Nat.testBit n y) h
    simp only [Nat.testBit_and, testBit_axesPair] at hx hy
    simp only [decide_True, Bool.true_or, Bool.or_true, Bool.and_true] at hx hy
    exact ⟨hx, hy⟩
  · rintro ⟨hx, hy⟩
    apply Nat.eq_of_testBit_eq
    intro i
    simp only [Nat.testBit_and, testBit_axesPair]
    by_cases h1 : x = i
    · subst h1; simp [hx]
    · by_cases h2 : y = i
      · subst h2; simp [hy]
      · simp [h1, h2]

/-- The bits of `g & ~XyAxes`. -/
theorem testBit_and_bitmapNot (width x y g i : Nat) (hg : g < 2 ^ width) :
    (g &&& bitmapNot width (axesPair x y)).testBit i
      = (g.testBit i && !(decide (x = i) || decide (y = i))) := by
  simp only [bitmapNot, Nat.testBit_and, Nat.testBit_xor, Nat.testBit_two_pow_sub_one,
    testBit_axesPair]
  by_cases hi : i < width
  · simp [hi]
  · have hgi : g.testBit i = false :=
      Nat.testBit_lt_two_pow (lt_of_lt_of_le hg (Nat.pow_le_pow_right (by decide) (by omega)))
    simp [hgi]

/-- C10.  For a bitmap `g` of `width` bits and X and Y axis numbers `x` and `y`: the result is `g` when `g` contains both `x` and `y`, and `g` with `x` and `y` removed
otherwise; it is a subset of `g`, holds `x` exactly when it holds `y`, and agrees with `g` on
every other axis. -/
theorem AxesAssumedHomed_xy_together (width x y g : Nat) (hg : g < 2 ^ width) :
    ((g.testBit x = true ∧ g.testBit y = true) →
      AxesAssumedHomed width (axesPair x y) g = g) ∧
    (¬ (g.testBit x = true ∧ g.testBit y = true) →
      ∀ i, (AxesAssumedHomed width (axesPair x y) g).testBit i
        = (g.testBit i && !(decide (x = i) || decide (y = i)))) ∧
    (∀ i, (AxesAssumedHomed width (axesPair x y) g).testBit i = true → g.testBit i = true) ∧
    ((AxesAssumedHomed width (axesPair x y) g).testBit x
      = (AxesAssumedHomed width (axesPair x y) g).testBit y) ∧
    (∀ i, i ≠ x → i ≠ y →
      (AxesAssumedHomed width (axesPair x y) g).testBit i = g.testBit i) := by
  by_cases hboth : g.testBit x = true ∧ g.testBit y = true
  · have hr : AxesAssumedHomed width (axesPair x y) g = g := by
      simp [AxesAssumedHomed, (and_axesPair_eq_iff x y g).2 hboth]
    rw [hr]
    exact ⟨fun _ => rfl, fun h => absurd hboth h, fun _ h => h, by rw [hboth.1, hboth.2],
      fun _ _ _ => rfl⟩
  · have hne : g &&& axesPair x y ≠ axesPair x y :=
      fun h => hboth ((and_axesPair_eq_iff x y g).1 h)
    have hr : ∀ i, (AxesAssumedHomed width (axesPair x y) g).testBit i
        = (g.testBit i && !(decide (x = i) || decide (y = i))) := by
      intro i
      simp only [AxesAssumedHomed, if_pos hne]
      exact testBit_and_bitmapNot width x y g i hg
    refine ⟨fun h => absurd h hboth, fun _ => hr, ?_, ?_, ?_⟩
    · intro i hi
      rw [hr] at hi
      simp only [Bool.and_eq_true] at hi
      exact hi.1
    · rw [hr, hr]; simp
    · intro i h1 h2
      rw [hr]
      simp [Ne.symm h1, Ne.symm h2]

/-- C10 (witness).  A 32-bit bitmap holding X, Z and U (bits 0, 2 and 3) with X = 0 and
Y = 1. -/
theorem AxesAssumedHomed_xy_together_witness :
    13 < 2 ^ 32 ∧
    (((Nat.testBit 13 0 = true ∧ Nat.testBit 13 1 = true) →
      AxesAssumedHomed 32 (axesPair 0 1) 13 = 13) ∧
    (¬ (Nat.testBit 13 0 = true ∧ Nat.testBit 13 1 = true) →
      ∀ i, (AxesAssumedHomed 32 (axesPair 0 1) 13).testBit i
        = (Nat.testBit 13 i && !(decide (0 = i) || decide (1 = i)))) ∧
    (∀ i, (AxesAssumedHomed 32 (axesPair 0 1) 13).testBit i = true → Nat.testBit 13 i = true) ∧
    ((AxesAssumedHomed 32 (axesPair 0 1) 13).testBit 0
      = (AxesAssumedHomed 32 (axesPair 0 1) 13).testBit 1) ∧
    (∀ i, i ≠ 0 → i ≠ 1 →
      (AxesAssumedHomed 32 (axesPair 0 1) 13).testBit i = Nat.testBit 13 i)) :=
  ⟨by decide, AxesAssumedHomed_xy_together 32 0 1 13 (by decide)⟩

/-- On every implementation of the float operations: when the target passes the radius test,
the distal joint does not rotate continuously, and neither `psi` nor `-psi` is within the psi
limits, the call returns false and `theta` is the value it held on entry; `psi` is the angle
computed for arm mode 0. -/
theorem CalculateThetaAndPsi_leaves_theta {F : Type} (ops : FloatOps F) (k : Scara F)
    (machinePosX machinePosY : F) (isCoordinated : Bool) (theta psi : F) (armMode : Bool)
    (hradius : failsRadiusTest ops k machinePosX machinePosY = false)
    (hcont : k.supportsContinuousRotation1 = false)
    (hpos : inRange ops k.psiLimits0 k.psiLimits1 (psiDegrees ops k machinePosX machinePosY)
      = false)
    (hneg : inRange ops k.psiLimits0 k.psiLimits1
      (ops.neg (psiDegrees ops k machinePosX machinePosY)) = false) :
    (CalculateThetaAndPsi ops k machinePosX machinePosY isCoordinated theta psi armMode).ret
      = false ∧
    (CalculateThetaAndPsi ops k machinePosX machinePosY isCoordinated theta psi armMode).theta
      = theta ∧
    (CalculateThetaAndPsi ops k machinePosX machinePosY isCoordinated theta psi armMode).psi
      = psiDegrees ops k machinePosX machinePosY := by
  simp only [failsRadiusTest, radiusSquare] at hradius
  simp only [psiDegrees] at hpos hneg
  cases armMode <;> cases isCoordinated <;>
    simp [CalculateThetaAndPsi, tryArmMode, psiDegrees, hradius, hcont, hpos, hneg]

/-- C3 (code_bug).  The arm of `exampleArm` is asked for the target (100, 100), which passes
the radius test (cosPsi = 0) and needs psi = 90 degrees, outside the limits of -45 to 45
degrees in both arm modes.  Called with `theta` holding NaN, the call returns false and
leaves `theta` NaN although the radius test was passed; called with `theta` holding 12.345,
it returns false and leaves 12.345 in `theta`, the entry value and not a computed one. -/
theorem CalculateThetaAndPsi_stale_theta :
    failsRadiusTest milliOps exampleArm (some 100000) (some 100000) = false ∧
    (CalculateThetaAndPsi milliOps exampleArm (some 100000) (some 100000) false
      milliOps.quiet_NaN milliOps.quiet_NaN false).ret = false ∧
    milliOps.isnan (CalculateThetaAndPsi milliOps exampleArm (some 100000) (some 100000) false
      milliOps.quiet_NaN milliOps.quiet_NaN false).theta = true ∧
    (CalculateThetaAndPsi milliOps exampleArm (some 100000) (some 100000) true
      (some 12345) milliOps.quiet_NaN false).ret = false ∧
    (CalculateThetaAndPsi milliOps exampleArm (some 100000) (some 100000) true
      (some 12345) milliOps.quiet_NaN false).theta = some 12345 := by
  decide

/-- C11.  `QueryTerminateHomingMove(axis)` is true exactly when the axis is X and
`crosstalk[0]` or `crosstalk[1]` is not 0, or the axis is Y and `crosstalk[2]` is not 0; it is
false for every axis when none of the three crosstalk values differs from 0, and false for
every axis other than X and Y.  In the arithmetic in thousandths with X = 0 and Y = 1: with no
crosstalk the X, Y and Z axes all give false; `crosstalk[1] = 0.5` makes X true and leaves Y
false; `crosstalk[2] = 0.5` makes Y true and leaves X and Z false. -/
theorem QueryTerminateHomingMove_iff_crosstalk {F : Type} (neZero : F → Bool)
    (X_AXIS Y_AXIS : Nat) (crosstalk0 crosstalk1 crosstalk2 : F) (axis : Nat) :
    (QueryTerminateHomingMove neZero X_AXIS Y_AXIS crosstalk0 crosstalk1 crosstalk2 axis = true
      ↔ (axis = X_AXIS ∧ (neZero crosstalk0 = true ∨ neZero crosstalk1 = true))
        ∨ (axis = Y_AXIS ∧ neZero crosstalk2 = true)) ∧
    (neZero crosstalk0 = false → neZero crosstalk1 = false → neZero crosstalk2 = false →
      QueryTerminateHomingMove neZero X_AXIS Y_AXIS crosstalk0 crosstalk1 crosstalk2 axis
        = false) ∧
    (axis ≠ X_AXIS → axis ≠ Y_AXIS →
      QueryTerminateHomingMove neZero X_AXIS Y_AXIS crosstalk0 crosstalk1 crosstalk2 axis
        = false) ∧
    (QueryTerminateHomingMove milliNeZero 0 1 (some 0) (some 0) (some 0) 0 = false ∧
      QueryTerminateHomingMove milliNeZero 0 1 (some 0) (some 0) (some 0) 1 = false ∧
      QueryTerminateHomingMove milliNeZero 0 1 (some 0) (some 0) (some 0) 2 = false ∧
      QueryTerminateHomingMove milliNeZero 0 1 (some 0) (some 500) (some 0) 0 = true ∧
      QueryTerminateHomingMove milliNeZero 0 1 (some 0) (some 500) (some 0) 1 = false ∧
      QueryTerminateHomingMove milliNeZero 0 1 (some 0) (some 0) (some 500) 1 = true ∧
      QueryTerminateHomingMove milliNeZero 0 1 (some 0) (some 0) (some 500) 0 = false ∧
      QueryTerminateHomingMove milliNeZero 0 1 (some 0) (some 0) (some 500) 2 = false) := by
  refine ⟨?_, ?_, ?_, by decide⟩
  · simp only [QueryTerminateHomingMove, Bool.or_eq_true, Bool.and_eq_true, decide_eq_true_eq]
  · intro h0 h1 h2
    simp [QueryTerminateHomingMove, h0, h1, h2]
  · intro hx hy
    simp [QueryTerminateHomingMove, hx, hy]

end ScaraKinematics
